import Mathlib

/-!
Verification of the schedule-micropython periodic task scheduler
(src/schedule/__init__.py) against its natural-language specification.

Shallow embedding conventions:
- Instants (`datetime.datetime` in UTC) and durations (`datetime.timedelta`)
  are modelled as `Int` numbers of seconds.  All claim-relevant comparisons
  and arithmetic in the source are exact on timezone-aware UTC datetimes, so
  second granularity is faithful (the source zeroes microseconds whenever an
  `at_time` is applied, and every `at()` / `until()` value has whole seconds).
- Python floor division and modulo on these quantities use a positive
  divisor everywhere the source divides, so they are modelled with the
  euclidean `/` and `%` of `Int` (equal to floor division for positive
  divisors).
- `random.randint(a, b)` is modelled by `randint a b seed`, a function of an
  arbitrary seed whose value always lies in the inclusive range `[a, b]`
  when `a <= b` (the documented contract of `randint`).
- `datetime.datetime.now(tz=timezone.utc)` is modelled by an explicit `now`
  parameter; a single dispatch / tick reads one instant.
- Exceptions become `Except SchedErr`; the three exception classes of the
  source are the three constructors of `SchedErr` (in Python,
  `ScheduleValueError` and `IntervalError` are subclasses of the plain base
  `ScheduleError`; an object raised as `ScheduleError(...)` is not an
  instance of `ScheduleValueError`).
-/

namespace Schedule

/-- Time units of a job, the five recognized values of `Job.unit`. -/
inductive TimeUnit where
  | seconds
  | minutes
  | hours
  | days
  | weeks
deriving DecidableEq

/-- Seconds in one unit: `datetime.timedelta(**{unit: 1})` in seconds. -/
def unitSeconds : TimeUnit → Int
  | .seconds => 1
  | .minutes => 60
  | .hours => 3600
  | .days => 86400
  | .weeks => 604800

/-- A `datetime.time` value as stored in `Job.at_time`: hour, minute, second
(the source always builds it with microsecond 0). -/
structure AtTime where
  hour : Nat
  minute : Nat
  second : Nat
deriving DecidableEq

/-- Python `time.__gt__`: lexicographic comparison of (hour, minute, second)
(microseconds are 0 on the left operand, so second granularity decides). -/
def atGtTime (a b : AtTime) : Bool :=
  decide (b.hour < a.hour) ||
    (a.hour == b.hour && (decide (b.minute < a.minute) ||
      (a.minute == b.minute && decide (b.second < a.second))))

/-- The weekday of an instant, Python `datetime.weekday()`: Monday = 0,
Sunday = 6.  The Unix epoch 1970-01-01 was a Thursday (= 3). -/
def weekdayOf (t : Int) : Int :=
  (t / 86400 + 3) % 7

/-- Python `datetime.time()` of an instant (its time-of-day components). -/
def timeOfDay (t : Int) : AtTime :=
  let s := (t % 86400).toNat
  ⟨s / 3600, s % 3600 / 60, s % 60⟩

/-- Python `dt.replace(second=s, microsecond=0)` on an instant. -/
def replaceSec (t : Int) (s : Nat) : Int :=
  t - t % 60 + s

/-- Python `dt.replace(minute=m, second=s, microsecond=0)` on an instant. -/
def replaceMinSec (t : Int) (m s : Nat) : Int :=
  t - t % 3600 + 60 * m + s

/-- Python `dt.replace(hour=h, minute=m, second=s, microsecond=0)`. -/
def replaceHMS (t : Int) (h m s : Nat) : Int :=
  t - t % 86400 + 3600 * h + 60 * m + s

/-- Model of `random.randint(a, b)`: for `a <= b` the result is a uniform
draw from the inclusive range `[a, b]`; the draw is made explicit through a
`seed` argument.  `a + seed % (b - a + 1)` realizes exactly the inclusive
range contract. -/
def randint (a b seed : Int) : Int :=
  a + seed % (b - a + 1)

/-- The three exception classes of the source.  `scheduleError` is the base
class `ScheduleError`; `scheduleValueError` and `intervalError` are its
subclasses `ScheduleValueError` / `IntervalError`.  A raised exception is
modelled by the constructor matching the class that the `raise` statement
names, so a `raise ScheduleError(...)` is `scheduleError`, which is not a
`scheduleValueError`. -/
inductive SchedErr where
  | scheduleError
  | scheduleValueError
  | intervalError
deriving DecidableEq

/-- The tuple of valid start days in `_schedule_next_run`. -/
def weekdays : List String :=
  ["monday", "tuesday", "wednesday", "thursday", "friday", "saturday", "sunday"]

/-- A `Job`, with the fields of `Job.__init__` that the claims depend on.
`jid` models Python object identity (list removal and in-place mutation act
on the object); `args` / `kwargs` / the callable are opaque to every claim
and are represented only by `job_func_name`.  Optional fields that the
source initializes to `None` are `Option`s defaulting to `none`. -/
structure Job where
  jid : Nat := 0
  interval : Int := 1
  latest : Option Int := none
  job_func_name : String := ""
  unit : Option TimeUnit := none
  at_time : Option AtTime := none
  last_run : Option Int := none
  next_run : Option Int := none
  period : Option Int := none
  start_day : Option String := none
  cancel_after : Option Int := none
deriving DecidableEq

/-- The interval drawn at the top of `_schedule_next_run`: if `latest` is
set it must be at least `interval` (else the source raises the base-class
`ScheduleError`), and then `random.randint(interval, latest)` is drawn;
otherwise `interval` itself is used. -/
def effectiveInterval (seed : Int) (j : Job) : Except SchedErr Int :=
  match j.latest with
  | some l =>
      if j.interval ≤ l then .ok (randint j.interval l seed)
      else .error .scheduleError
  | none => .ok j.interval

/-- The base instant chosen by `_schedule_next_run` before anchoring:
advance from `last_run` when set; keep a pre-existing `next_run` when
`last_run` is unset; otherwise start from `now`. -/
def basePoint (now period : Int) (j : Job) : Int :=
  match j.last_run, j.next_run with
  | some lr, _ => lr + period
  | none, some nr => nr
  | none, none => now + period

/-- The `start_day` block of `_schedule_next_run`: for an anchored job the
unit must be `weeks` and the start day one of the seven weekday names; the
instant is moved forward to the anchor weekday (adding 7 days when the delta
is non-positive) and then one period is subtracted. -/
def anchorStep (period t : Int) (j : Job) : Except SchedErr Int :=
  match j.start_day with
  | none => .ok t
  | some sd =>
      if j.unit ≠ some .weeks then .error .scheduleValueError
      else if sd ∈ weekdays then
        let wd : Int := (weekdays.indexOf sd : Nat)
        let d0 := wd - weekdayOf t
        let daysAhead := if d0 ≤ 0 then d0 + 7 else d0
        .ok (t + 86400 * daysAhead - period)
      else .error .scheduleValueError

/-- The `at_time` block of `_schedule_next_run`: overwrite the unit-relevant
time-of-day components of the instant, then (when the job never ran, or
overran its period) shift back by one fixed unit - a day, an hour or a
minute according to `unit` - when the target time-of-day has not yet
occurred in the current cycle. -/
def atTimeStep (now period : Int) (j : Job) (t : Int) : Except SchedErr Int :=
  match j.at_time with
  | none => .ok t
  | some a =>
      if (j.unit ≠ some .days ∧ j.unit ≠ some .hours ∧ j.unit ≠ some .minutes)
          ∧ j.start_day = none then
        .error .scheduleValueError
      else
        let t1 :=
          if j.unit = some .days ∨ j.start_day.isSome then
            replaceHMS t a.hour a.minute a.second
          else if j.unit = some .hours then
            replaceMinSec t a.minute a.second
          else
            replaceSec t a.second
        let cond : Bool :=
          match j.last_run with
          | none => true
          | some lr => decide (period < t1 - lr)
        let t2 :=
          if cond then
            let nt := timeOfDay now
            if j.unit = some .days ∧ atGtTime a nt ∧ j.interval = 1 then
              t1 - 86400
            else if j.unit = some .hours ∧
                (nt.minute < a.minute ∨ (a.minute = nt.minute ∧ nt.second < a.second)) then
              t1 - 3600
            else if j.unit = some .minutes ∧ nt.second < a.second then
              t1 - 60
            else t1
          else t1
        .ok t2

/-- The final `start_day`-with-`at_time` double check of
`_schedule_next_run`: when both are set and the instant is at least 7 days
out (Python `timedelta.days`, floor division), subtract one period. -/
def finalCheck (now period : Int) (j : Job) (t : Int) : Int :=
  if j.start_day.isSome ∧ j.at_time.isSome then
    if 7 ≤ (t - now) / 86400 then t - period else t
  else t

/-- `Job._schedule_next_run`, composed from the blocks above in source
order; on success the job's `period` and `next_run` fields are updated. -/
def Job.schedule_next_run (now seed : Int) (j : Job) : Except SchedErr Job :=
  match j.unit with
  | none => .error .scheduleValueError
  | some u => do
      let iv ← effectiveInterval seed j
      let period := iv * unitSeconds u
      let t0 := basePoint now period j
      let t1 ← anchorStep period t0 j
      let t2 ← atTimeStep now period j t1
      let t3 := finalCheck now period j t2
      .ok { j with period := some period, next_run := some t3 }

/-- The eventual result of a job's coroutine: either the `CancelJob`
sentinel or any other value. -/
inductive FuncResult where
  | cancelSentinel
  | value
deriving DecidableEq

/-- What `Job.run` returns to `_run_job`: either the `CancelJob` class
itself (the deadline paths) or the freshly created `asyncio` task handle,
which wraps the coroutine whose eventual result is `res`.  The handle is an
`asyncio.Task` object and is never an instance of `CancelJob`, whatever the
coroutine eventually returns. -/
inductive RunRet where
  | cancelJob
  | task (res : FuncResult)
deriving DecidableEq

/-- The observable outcome of one `Job.run` call: the job object after the
call (the source mutates it in place), whether the callable was handed off
to a task (`invoked`), and the returned value. -/
structure RunOutcome where
  job : Job
  invoked : Bool
  ret : RunRet
deriving DecidableEq

/-- `Job._is_overdue(when)`: true iff a deadline is set and `when` is
strictly after it. -/
def Job.is_overdue (j : Job) (wh : Int) : Bool :=
  match j.cancel_after with
  | some ca => decide (ca < wh)
  | none => false

/-- `Job.run`: if the deadline has already passed, return `CancelJob`
without touching the job; otherwise create the task (invoking the
callable), set `last_run := now`, recompute the schedule, and return
`CancelJob` when the new `next_run` is past the deadline, else the task
handle.  `Job.schedule_next_run` always produces a `some` `next_run` on
success (see `schedule_next_run_isSome`), so the `getD` default is never
read. -/
def Job.run (now seed : Int) (res : FuncResult) (j : Job) :
    Except SchedErr RunOutcome :=
  if j.is_overdue now then .ok ⟨j, false, .cancelJob⟩
  else
    let j1 := { j with last_run := some now }
    match j1.schedule_next_run now seed with
    | .error e => .error e
    | .ok j2 =>
        if j2.is_overdue (j2.next_run.getD 0) then .ok ⟨j2, true, .cancelJob⟩
        else .ok ⟨j2, true, .task res⟩

/-- An in-flight `asyncio` task handle held in `Scheduler.tasks`. -/
structure Task where
  tid : Nat
  done : Bool
deriving DecidableEq

/-- The mutable state of a `Scheduler`: its job list, its task list and a
counter supplying fresh task identities. -/
structure SchedState where
  jobs : List Job := []
  tasks : List Task := []
  nextTid : Nat := 0
deriving DecidableEq

/-- Python `list.remove` by object identity (jobs have no custom equality):
drop the first element with the given identity; removing an absent job is a
no-op, as in `Scheduler.cancel_job`. -/
def removeFirst : List Job → Nat → List Job
  | [], _ => []
  | q :: qs, i => if q.jid = i then qs else q :: removeFirst qs i

/-- `Scheduler.cancel_job`. -/
def cancel_job (st : SchedState) (j : Job) : SchedState :=
  { st with jobs := removeFirst st.jobs j.jid }

/-- `Scheduler._run_job`: run the job (its in-place mutation is reflected at
the job's identity in `jobs`, and a created task is appended to `tasks`),
then cancel the job iff the returned value is the `CancelJob` class.  A
task handle never satisfies that test, whatever its coroutine returns. -/
def run_job (now seed : Int) (res : FuncResult) (st : SchedState) (j : Job) :
    Except SchedErr SchedState :=
  match j.run now seed res with
  | .error e => .error e
  | .ok out =>
      let st1 : SchedState :=
        { st with
          jobs := st.jobs.map fun q => if q.jid = j.jid then out.job else q
          tasks := if out.invoked then st.tasks ++ [⟨st.nextTid, false⟩] else st.tasks
          nextTid := if out.invoked then st.nextTid + 1 else st.nextTid }
      if out.ret = .cancelJob then .ok (cancel_job st1 out.job) else .ok st1

/-- `Job.should_run`: due iff `now >= next_run` (the source asserts that
`next_run` is set for every scheduled job). -/
def Job.should_run (now : Int) (j : Job) : Bool :=
  match j.next_run with
  | some nr => decide (nr ≤ now)
  | none => false

/-- The sort key used by `Job.__lt__`: jobs compare by `next_run`. -/
def nextRunKey (j : Job) : Int :=
  j.next_run.getD 0

/-- The ordering relation of `sorted(runnable_jobs)`. -/
def jobLe (a b : Job) : Prop :=
  nextRunKey a ≤ nextRunKey b

instance : DecidableRel jobLe := fun a b => Int.decLe (nextRunKey a) (nextRunKey b)

instance : IsTotal Job jobLe := ⟨fun x y => Int.le_total (nextRunKey x) (nextRunKey y)⟩

instance : IsTrans Job jobLe := ⟨fun _ _ _ => Int.le_trans⟩

/-- Python `sorted` on jobs: a stable sort by `next_run` (insertion sort is
stable and agrees with any stable sort on this total order). -/
def sortByNextRun (l : List Job) : List Job :=
  l.insertionSort jobLe

/-- The dispatch loop of `run_pending`: `_run_job` on each due job in
order.  The per-dispatch environment `env` supplies, for the k-th dispatch
of the tick, the random seed consumed by a jittered recomputation and the
eventual result of the callable's coroutine.  A recomputation error
propagates out of the tick, as in the source. -/
def dispatchAll (now : Int) (env : Nat → Int × FuncResult) :
    SchedState → List Job → Nat → Except SchedErr SchedState
  | st, [], _ => .ok st
  | st, j :: js, k =>
      match run_job now (env k).1 (env k).2 st j with
      | .error e => .error e
      | .ok st1 => dispatchAll now env st1 js (k + 1)

/-- The observable outcome of one polling tick: the scheduler state when
the tick returns, the list of jobs dispatched (in dispatch order), and the
set of task handles the tick awaits (`asyncio.gather`) before returning. -/
structure TickResult where
  state : SchedState
  dispatched : List Job
  awaited : List Task
deriving DecidableEq

/-- `Scheduler.run_pending`: collect the due jobs, sort them by `next_run`,
dispatch each in order, drop completed tasks from the outstanding set, and
await every remaining outstanding task (from this and earlier ticks); the
awaited handles are returned as `awaited`. -/
def run_pending (now : Int) (env : Nat → Int × FuncResult) (st : SchedState) :
    Except SchedErr TickResult := do
  let due := sortByNextRun (st.jobs.filter (Job.should_run now))
  let st1 ← dispatchAll now env st due 0
  let remaining := st1.tasks.filter fun t => !t.done
  .ok ⟨{ st1 with tasks := remaining }, due, remaining⟩

/-- The structured record produced by `Job.asdict` and consumed by
`from_json`: one entry of the persistence format.  The keys `at_time`,
`last_run` and `next_run` are present iff the field is set (`none` models
an absent key); timestamps are carried in a text form that the restore path
parses back to the same instant (`isoformat` composed with
`parse_float_or_isotime` is the identity on instants). -/
structure JobRecord where
  interval : Int
  latest : Option Int
  job_func_name : String
  unit : Option TimeUnit
  start_day : Option String
  cancel_after : Option Int
  at_time : Option AtTime
  last_run : Option Int
  next_run : Option Int
deriving DecidableEq

/-- The job built by `from_json` from one record before the `next_run`
check: a fresh `Job(interval=..., scheduler=default_scheduler)` whose
fields are filled from the record (`period` is not serialized and stays
unset; `jid` is the fresh object's identity). -/
def recordToJob (jid : Nat) (r : JobRecord) : Job :=
  { jid := jid, interval := r.interval, latest := r.latest,
    job_func_name := r.job_func_name, unit := r.unit,
    start_day := r.start_day, cancel_after := r.cancel_after,
    at_time := r.at_time, last_run := r.last_run, next_run := r.next_run }

/-- The per-record body of `from_json`: build the job; only when its
`next_run` is unset, call `_schedule_next_run`, treating an error as
logged-and-ignored; finally keep the job iff `next_run` ended up set
(records whose computation failed are silently dropped). -/
def restoreRecord (now seed : Int) (jid : Nat) (r : JobRecord) : Option Job :=
  let job := recordToJob jid r
  let job2 :=
    match job.next_run with
    | some _ => job
    | none =>
        match job.schedule_next_run now seed with
        | .ok j2 => j2
        | .error _ => job
  if job2.next_run.isSome then some job2 else none

/-- `from_json` over a record list: restore each record in order, appending
the kept jobs to the default scheduler's job list. -/
def from_json (now seed : Int) (rs : List JobRecord) (jobs0 : List Job) :
    List Job :=
  jobs0 ++ rs.enum.filterMap fun p => restoreRecord now seed p.1 p.2

/-- `Job.to(latest)`: store the jitter bound; no validation happens here. -/
def Job.to (latest : Int) (j : Job) : Job :=
  { j with latest := some latest }

/-- `Scheduler.every(interval)` / the `Job` constructor: a fresh
unconfigured job. -/
def every (interval : Int) (jid : Nat := 0) : Job :=
  { jid := jid, interval := interval }

/-- The `Job.monday` accessor: only valid on literal weekly jobs
(`interval == 1`, else `IntervalError`); sets the start day and, through
`self.weeks`, the unit. -/
def Job.monday (j : Job) : Except SchedErr Job :=
  if j.interval ≠ 1 then .error .intervalError
  else .ok { j with start_day := some "monday", unit := some .weeks }

/-- Python `c.isdigit()` restricted to one character of `\d` in the
source's patterns. -/
def isDigit (c : Char) : Bool :=
  decide ('0' ≤ c) && decide (c ≤ '9')

/-- One character of the class `[0-5]`. -/
def isDigit05 (c : Char) : Bool :=
  decide ('0' ≤ c) && decide (c ≤ '5')

/-- One character of the class `[0-2]`. -/
def isDigit02 (c : Char) : Bool :=
  decide ('0' ≤ c) && decide (c ≤ '2')

/-- The daily-job pattern of `Job.at`: HH:MM with optional :SS, i.e. regex
`[0-2]\d:[0-5]\d(:[0-5]\d)?` anchored on both sides (the two shapes are
distinguished by length so the checker reduces on symbolic digits). -/
def dailyFormatOk : List Char → Bool
  | [a, b, c, d, e] =>
      isDigit02 a && isDigit b && (c == ':') && isDigit05 d && isDigit e
  | [a, b, c, d, e, f, g, h] =>
      isDigit02 a && isDigit b && (c == ':') && isDigit05 d && isDigit e &&
        (f == ':') && isDigit05 g && isDigit h
  | _ => false

/-- The hourly-job pattern of `Job.at`: regex `([0-5]\d)?:[0-5]\d`
anchored, i.e. an optional leading two-digit field before the colon. -/
def hourlyFormatOk : List Char → Bool
  | [a, b, c] => (a == ':') && isDigit05 b && isDigit c
  | [a, b, c, d, e] =>
      isDigit05 a && isDigit b && (c == ':') && isDigit05 d && isDigit e
  | _ => false

/-- The minute-job pattern of `Job.at`: regex `:[0-5]\d` anchored. -/
def minuteFormatOk : List Char → Bool
  | [a, b, c] => (a == ':') && isDigit05 b && isDigit c
  | _ => false

/-- Python `time_str.split(":")`: split at every colon, keeping empty
pieces. -/
def splitColon : List Char → List (List Char)
  | [] => [[]]
  | c :: cs =>
      if c = ':' then [] :: splitColon cs
      else
        match splitColon cs with
        | h :: t => (c :: h) :: t
        | [] => [[c]]

/-- Python `int()` on the digit strings produced by the accepted formats. -/
def strToNat (l : List Char) : Nat :=
  l.foldl (fun n c => 10 * n + (c.toNat - 48)) 0

/-- The component overrides and conversions at the end of `Job.at` (source
lines 440-454): daily/anchored jobs keep the parsed hour after a range
check; hourly jobs force hour 0; minute jobs force hour and minute to 0. -/
def finishAt (j : Job) (h m s : List Char) : Except SchedErr Job :=
  if j.unit = some .days ∨ j.start_day.isSome then
    let hour := strToNat h
    if hour ≤ 23 then
      .ok { j with at_time := some ⟨hour, strToNat m, strToNat s⟩ }
    else .error .scheduleValueError
  else if j.unit = some .hours then
    .ok { j with at_time := some ⟨0, strToNat m, strToNat s⟩ }
  else
    .ok { j with at_time := some ⟨0, 0, strToNat s⟩ }

/-- `Job.at(time_str)`: validate the unit, check the per-unit pattern,
split on colons, distribute the pieces onto (hour, minute, second)
following the source's branches, force unit-irrelevant components to 0,
range-check the hour for daily jobs, and store the time-of-day.  The final
wildcard match is unreachable: every accepted pattern splits into two or
three pieces (Python would raise a bare `ValueError` from tuple unpacking
there). -/
def Job.at (time_str : String) (j : Job) : Except SchedErr Job :=
  if (j.unit ≠ some .days ∧ j.unit ≠ some .hours ∧ j.unit ≠ some .minutes)
      ∧ j.start_day = none then
    .error .scheduleValueError
  else
    let cs := time_str.data
    if (j.unit = some .days ∨ j.start_day.isSome) ∧ ¬ dailyFormatOk cs then
      .error .scheduleValueError
    else if j.unit = some .hours ∧ ¬ hourlyFormatOk cs then
      .error .scheduleValueError
    else if j.unit = some .minutes ∧ ¬ minuteFormatOk cs then
      .error .scheduleValueError
    else
      match splitColon cs with
      | [h, m, s] => finishAt j h m s
      | [a, b] =>
          if j.unit = some .minutes then finishAt j ['0'] ['0'] b
          else if j.unit = some .hours ∧ a ≠ [] then finishAt j ['0'] a b
          else finishAt j a b ['0']
      | _ => .error .scheduleValueError

/-! ## Helper lemmas shared by the claim theorems -/

/-- Reduction of `_schedule_next_run` for a job with no jitter bound, no
anchor weekday and no at-time: the result is the base instant. -/
theorem schedule_plain (j : Job) (now seed : Int) (u : TimeUnit)
    (h1 : j.unit = some u) (h2 : j.latest = none) (h3 : j.start_day = none)
    (h4 : j.at_time = none) :
    j.schedule_next_run now seed =
      .ok { j with
              period := some (j.interval * unitSeconds u),
              next_run := some (basePoint now (j.interval * unitSeconds u) j) } := by
  simp [Job.schedule_next_run, h1, h2, h3, h4, effectiveInterval, anchorStep,
    atTimeStep, finalCheck, bind, Except.bind]

/-! ## Claim theorems -/

/-- C2.  Next-run recomputation picks its base instant as the claim states:
with `last_run` set the new `next_run` is `last_run + period` (for every
`now`, so independent of the current time); with `last_run` unset but
`next_run` set, `next_run` is kept; otherwise it is `now + period`.  In
particular an `every(2).seconds` job that last ran at `T` gets
`next_run = T + 2` whatever `now` is. -/
theorem c2_base_instant :
    (∀ (j : Job) (now seed lr : Int) (u : TimeUnit),
        j.unit = some u → j.latest = none → j.start_day = none →
        j.at_time = none → j.last_run = some lr →
        j.schedule_next_run now seed =
          .ok { j with
                  period := some (j.interval * unitSeconds u),
                  next_run := some (lr + j.interval * unitSeconds u) }) ∧
    (∀ (j : Job) (now seed nr : Int) (u : TimeUnit),
        j.unit = some u → j.latest = none → j.start_day = none →
        j.at_time = none → j.last_run = none → j.next_run = some nr →
        j.schedule_next_run now seed =
          .ok { j with
                  period := some (j.interval * unitSeconds u),
                  next_run := some nr }) ∧
    (∀ (j : Job) (now seed : Int) (u : TimeUnit),
        j.unit = some u → j.latest = none → j.start_day = none →
        j.at_time = none → j.last_run = none → j.next_run = none →
        j.schedule_next_run now seed =
          .ok { j with
                  period := some (j.interval * unitSeconds u),
                  next_run := some (now + j.interval * unitSeconds u) }) ∧
    (∀ (T now seed : Int),
        Job.schedule_next_run now seed
            { interval := 2, unit := some TimeUnit.seconds, last_run := some T } =
          .ok { interval := 2, unit := some TimeUnit.seconds, last_run := some T,
                period := some 2, next_run := some (T + 2) }) := by
  refine ⟨?_, ?_, ?_, ?_⟩
  · intro j now seed lr u h1 h2 h3 h4 h5
    rw [schedule_plain j now seed u h1 h2 h3 h4]
    simp [basePoint, h5]
  · intro j now seed nr u h1 h2 h3 h4 h5 h6
    rw [schedule_plain j now seed u h1 h2 h3 h4]
    simp [basePoint, h5, h6]
  · intro j now seed u h1 h2 h3 h4 h5 h6
    rw [schedule_plain j now seed u h1 h2 h3 h4]
    simp [basePoint, h5, h6]
  · intro T now seed
    rw [schedule_plain _ now seed .seconds rfl rfl rfl rfl]
    simp [basePoint, unitSeconds]

/-- Witness for C2 at concrete inputs, one per branch of the claim. -/
theorem c2_base_instant_witness :
    Job.schedule_next_run 77 0
        { interval := 3, unit := some TimeUnit.minutes, last_run := some 1000 } =
      .ok { interval := 3, unit := some TimeUnit.minutes, last_run := some 1000,
            period := some 180, next_run := some 1180 } ∧
    Job.schedule_next_run 77 0
        { interval := 3, unit := some TimeUnit.minutes, next_run := some 500 } =
      .ok { interval := 3, unit := some TimeUnit.minutes, next_run := some 500,
            period := some 180 } ∧
    Job.schedule_next_run 77 0 { interval := 3, unit := some TimeUnit.minutes } =
      .ok { interval := 3, unit := some TimeUnit.minutes,
            period := some 180, next_run := some 257 } :=
  ⟨c2_base_instant.1
      { interval := 3, unit := some TimeUnit.minutes, last_run := some 1000 }
      77 0 1000 TimeUnit.minutes rfl rfl rfl rfl rfl,
    c2_base_instant.2.1
      { interval := 3, unit := some TimeUnit.minutes, next_run := some 500 }
      77 0 500 TimeUnit.minutes rfl rfl rfl rfl rfl rfl,
    c2_base_instant.2.2.1
      { interval := 3, unit := some TimeUnit.minutes }
      77 0 TimeUnit.minutes rfl rfl rfl rfl rfl rfl⟩

/-- The day adjustment of the `start_day` block: days from the instant's
weekday forward to the target weekday, with 7 added when the delta is
non-positive. -/
def daysAhead (sd : String) (t : Int) : Int :=
  if ((weekdays.indexOf sd : Nat) : Int) - weekdayOf t ≤ 0 then
    ((weekdays.indexOf sd : Nat) : Int) - weekdayOf t + 7
  else ((weekdays.indexOf sd : Nat) : Int) - weekdayOf t

/-- C3.  Weekday anchoring: for an anchored weekly job the anchor step adds
`daysAhead` days (a value in [1, 7] that lands the instant exactly on the
target weekday) and subtracts one period.  Concretely,
`every().monday.at("09:00")` bound on Wednesday 1970-01-07 12:00 UTC
(t = 561600) yields the upcoming Monday 09:00:00 UTC (t = 982800, within
the next 7 days), and bound on Monday 1970-01-05 08:00 UTC (t = 374400)
yields the same day at 09:00 (t = 378000), not next week. -/
theorem c3_weekday_anchor :
    (∀ (period t : Int) (j : Job) (sd : String),
        j.start_day = some sd → j.unit = some .weeks → sd ∈ weekdays →
        1 ≤ daysAhead sd t ∧ daysAhead sd t ≤ 7 ∧
        weekdayOf (t + 86400 * daysAhead sd t) = (weekdays.indexOf sd : Nat) ∧
        anchorStep period t j = .ok (t + 86400 * daysAhead sd t - period)) ∧
    ((Job.monday (every 1)).bind (Job.at "09:00") =
        .ok { interval := 1, unit := some .weeks, start_day := some "monday",
              at_time := some ⟨9, 0, 0⟩ } ∧
      Job.schedule_next_run 561600 0
          { interval := 1, unit := some .weeks, start_day := some "monday",
            at_time := some ⟨9, 0, 0⟩ } =
        .ok { interval := 1, unit := some .weeks, start_day := some "monday",
              at_time := some ⟨9, 0, 0⟩, period := some 604800,
              next_run := some 982800 } ∧
      weekdayOf 561600 = 2 ∧ weekdayOf 982800 = 0 ∧
      timeOfDay 982800 = ⟨9, 0, 0⟩ ∧
      (561600 : Int) < 982800 ∧ (982800 : Int) - 561600 < 604800) ∧
    (Job.schedule_next_run 374400 0
          { interval := 1, unit := some .weeks, start_day := some "monday",
            at_time := some ⟨9, 0, 0⟩ } =
        .ok { interval := 1, unit := some .weeks, start_day := some "monday",
              at_time := some ⟨9, 0, 0⟩, period := some 604800,
              next_run := some 378000 } ∧
      weekdayOf 374400 = 0 ∧ timeOfDay 374400 = ⟨8, 0, 0⟩ ∧
      weekdayOf 378000 = 0 ∧ timeOfDay 378000 = ⟨9, 0, 0⟩ ∧
      (378000 : Int) / 86400 = (374400 : Int) / 86400) := by
  refine ⟨?_, ⟨rfl, rfl, by decide, by decide, by decide, by decide, by decide⟩,
    ⟨rfl, by decide, by decide, by decide, by decide, by decide⟩⟩
  intro period t j sd hsd hu hmem
  have hw : (weekdays.indexOf sd : Nat) < 7 := by
    simp only [weekdays, List.mem_cons, List.not_mem_nil, or_false] at hmem
    rcases hmem with h | h | h | h | h | h | h <;> subst h <;> decide
  have hmod0 : 0 ≤ (t / 86400 + 3) % 7 := Int.emod_nonneg _ (by norm_num)
  have hmod7 : (t / 86400 + 3) % 7 < 7 := Int.emod_lt_of_pos _ (by norm_num)
  refine ⟨?_, ?_, ?_, ?_⟩
  · simp only [daysAhead, weekdayOf]
    split_ifs <;> omega
  · simp only [daysAhead, weekdayOf]
    split_ifs <;> omega
  · simp only [daysAhead, weekdayOf]
    have hdiv : ∀ c : Int, (t + 86400 * c) / 86400 = t / 86400 + c :=
      fun c => Int.add_mul_ediv_left t c (by norm_num)
    rw [hdiv]
    split_ifs <;> omega
  · simp only [anchorStep, hsd, hu, hmem]
    simp [daysAhead, weekdayOf]

/-- Witness for C3's general conjunct at a concrete anchored job. -/
theorem c3_weekday_anchor_witness :
    1 ≤ daysAhead "friday" 561600 ∧ daysAhead "friday" 561600 ≤ 7 ∧
    weekdayOf (561600 + 86400 * daysAhead "friday" 561600) =
      (weekdays.indexOf "friday" : Nat) ∧
    anchorStep 604800 561600
        { interval := 1, unit := some .weeks, start_day := some "friday" } =
      .ok (561600 + 86400 * daysAhead "friday" 561600 - 604800) :=
  c3_weekday_anchor.1 604800 561600
    { interval := 1, unit := some .weeks, start_day := some "friday" }
    "friday" rfl rfl (by decide)

/-- The failing job of claims C1: a plain due job whose coroutine will
return the `CancelJob` sentinel. -/
def jC1 : Job :=
  { jid := 1, interval := 5, unit := some .seconds, next_run := some 50 }

/-- C1 (refuted; code bug).  A callable returning the `CancelJob` sentinel
does not get its job removed: `Job.run` returns the freshly created task
handle (never the sentinel), `_run_job`'s test therefore fails, and after
the tick the job is still scheduled - contradicting both the claim and the
`CancelJob` docstring.  Only the deadline paths return `CancelJob`
itself. -/
theorem c1_sentinel_result_not_removed :
    Job.run 100 0 .cancelSentinel jC1 =
      .ok ⟨{ jC1 with
               last_run := some 100, period := some 5,
               next_run := some 105 }, true, .task .cancelSentinel⟩ ∧
    RunRet.task .cancelSentinel ≠ RunRet.cancelJob ∧
    run_pending 100 (fun _ => (0, .cancelSentinel))
        { jobs := [jC1], tasks := [] } =
      .ok ⟨{ jobs := [{ jC1 with
                          last_run := some 100, period := some 5,
                          next_run := some 105 }],
             tasks := [⟨0, false⟩], nextTid := 1 }, [jC1], [⟨0, false⟩]⟩ := by
  refine ⟨rfl, by decide, rfl⟩

/-- The counterexample job of claim C4: an hourly job with interval 2 (so
one period = 7200 s) and `at_time` 00:30:00. -/
def jC4 : Job :=
  { interval := 2, unit := some .hours, at_time := some ⟨0, 30, 0⟩ }

/-- C4 counterexample.  At `now = 900` (00:15:00, so the target minute 30
has not yet occurred) the post-replace instant is 9000 and the source
shifts back by one fixed hour to 5400; the claim's "exactly one period"
would give 1800.  The shift is one unit, not one period. -/
theorem c4_counterexample :
    jC4.schedule_next_run 900 0 =
      .ok { jC4 with period := some 7200, next_run := some 5400 } ∧
    replaceMinSec (basePoint 900 7200 jC4) 30 0 = 9000 ∧
    (5400 : Int) = 9000 - 3600 ∧
    ¬ (5400 : Int) = 9000 - 7200 := by
  refine ⟨rfl, rfl, by decide, by decide⟩

/-- The time-of-day overwrite applied by the `at_time` block to a job
without an anchor weekday: days overwrite hour, minute and second; hours
overwrite minute and second; minutes overwrite the second only. -/
def afterReplace (u : TimeUnit) (a : AtTime) (t : Int) : Int :=
  if u = .days then replaceHMS t a.hour a.minute a.second
  else if u = .hours then replaceMinSec t a.minute a.second
  else replaceSec t a.second

/-- The condition under which the `at_time` block shifts the instant back,
for a job without an anchor weekday: the target time-of-day has not yet
occurred in the current cycle of the unit (for days, additionally only when
`interval == 1`). -/
def shiftCond (u : TimeUnit) (interval : Int) (a : AtTime) (now : Int) : Prop :=
  match u with
  | .days => atGtTime a (timeOfDay now) = true ∧ interval = 1
  | .hours =>
      (timeOfDay now).minute < a.minute ∨
        (a.minute = (timeOfDay now).minute ∧ (timeOfDay now).second < a.second)
  | .minutes => (timeOfDay now).second < a.second
  | _ => False

/-- The amount the `at_time` block shifts back by: one fixed unit (one day,
one hour or one minute), not one period. -/
def catchUpShift : TimeUnit → Int
  | .days => 86400
  | .hours => 3600
  | .minutes => 60
  | _ => 0

/-- Reduction of the `at_time` block for a job without an anchor weekday:
when the job never ran or its post-overwrite instant overran its period
(`hcond` covers both disjuncts of the source's
`not self.last_run or (self.next_run - self.last_run) > self.period`), and
the target time-of-day has not yet occurred in the current cycle, the
result is the post-overwrite instant minus one fixed unit. -/
theorem atTimeStep_shift (j : Job) (a : AtTime) (now P t : Int) (u : TimeUnit)
    (hu : j.unit = some u) (hat : j.at_time = some a)
    (hsd : j.start_day = none)
    (hcond : ∀ lr : Int, j.last_run = some lr → P < afterReplace u a t - lr)
    (hshift : shiftCond u j.interval a now) :
    atTimeStep now P j t = .ok (afterReplace u a t - catchUpShift u) := by
  cases u
  · exact absurd hshift (by simp [shiftCond])
  · simp only [shiftCond] at hshift
    cases hlr : j.last_run with
    | none =>
        simp [atTimeStep, hat, hu, hsd, hlr, afterReplace, catchUpShift,
          hshift]
    | some lr =>
        have hov := hcond lr hlr
        simp [afterReplace] at hov
        simp [atTimeStep, hat, hu, hsd, hlr, afterReplace, catchUpShift,
          hshift, hov]
  · simp only [shiftCond] at hshift
    cases hlr : j.last_run with
    | none =>
        simp [atTimeStep, hat, hu, hsd, hlr, afterReplace, catchUpShift,
          hshift]
    | some lr =>
        have hov := hcond lr hlr
        simp [afterReplace] at hov
        simp [atTimeStep, hat, hu, hsd, hlr, afterReplace, catchUpShift,
          hshift, hov]
  · simp only [shiftCond] at hshift
    cases hlr : j.last_run with
    | none =>
        simp [atTimeStep, hat, hu, hsd, hlr, afterReplace, catchUpShift,
          hshift.1, hshift.2]
    | some lr =>
        have hov := hcond lr hlr
        simp [afterReplace] at hov
        simp [atTimeStep, hat, hu, hsd, hlr, afterReplace, catchUpShift,
          hshift.1, hshift.2, hov]
  · exact absurd hshift (by simp [shiftCond])

/-- Composition of `_schedule_next_run` for a job without an anchor
weekday: with the effective interval drawn as `iv` and the `at_time` block
producing `t2` from the base instant, the job is updated with that period
and `next_run`. -/
theorem schedule_next_run_eq (j : Job) (now seed iv : Int) (u : TimeUnit)
    (t2 : Int) (hu : j.unit = some u)
    (he : effectiveInterval seed j = .ok iv) (hsd : j.start_day = none)
    (hat2 : atTimeStep now (iv * unitSeconds u) j
        (basePoint now (iv * unitSeconds u) j) = .ok t2) :
    j.schedule_next_run now seed =
      .ok { j with
              period := some (iv * unitSeconds u),
              next_run := some t2 } := by
  simp [Job.schedule_next_run, hu, he, bind, Except.bind, anchorStep, hsd,
    hat2, finalCheck]

/-- C4 (amended).  For every job with an `at_time` and no anchor weekday -
with any drawn effective interval `iv` (jittered or not) and any base
instant (fresh, advanced from `last_run`, or a restored `next_run`) - if
`last_run` is unset or the post-overwrite instant is more than one period
past `last_run`, and the target time-of-day has not yet occurred in the
current unit's cycle, then the computed `next_run` is the post-overwrite
instant shifted back by exactly ONE UNIT of the job's time unit
(`catchUpShift`, a fixed day / hour / minute - with daily jobs requiring
`interval == 1`), not by one full period as the original claim stated. -/
theorem c4_amended_one_unit_shift :
    ∀ (j : Job) (a : AtTime) (now seed iv : Int) (u : TimeUnit),
      j.unit = some u → j.at_time = some a → j.start_day = none →
      effectiveInterval seed j = .ok iv →
      (∀ lr : Int, j.last_run = some lr →
        iv * unitSeconds u <
          afterReplace u a (basePoint now (iv * unitSeconds u) j) - lr) →
      shiftCond u j.interval a now →
      j.schedule_next_run now seed =
        .ok { j with
                period := some (iv * unitSeconds u),
                next_run := some (afterReplace u a
                  (basePoint now (iv * unitSeconds u) j) - catchUpShift u) } := by
  intro j a now seed iv u hu hat hsd he hover hshift
  exact schedule_next_run_eq j now seed iv u _ hu he hsd
    (atTimeStep_shift j a now (iv * unitSeconds u)
      (basePoint now (iv * unitSeconds u) j) u hu hat hsd hover hshift)

/-- Witness for C4's amended theorem.  First conjunct: the counterexample
input itself, a fresh hourly job with interval 2 at `now = 900` - the
shift is 3600, one hour, not the 7200-second period.  Second conjunct: the
overrun disjunct, an hourly job that last ran at 0 whose post-overwrite
instant 5400 overran its 3600-second period - again shifted by one hour to
1800.  Third conjunct: a restored schedule (`next_run` set, `last_run`
unset) with a jitter bound drawn at `iv = 2`. -/
theorem c4_amended_one_unit_shift_witness :
    Job.schedule_next_run 900 0
        { interval := 2, unit := some TimeUnit.hours, at_time := some ⟨0, 30, 0⟩ } =
      .ok { interval := 2, unit := some TimeUnit.hours,
            at_time := some ⟨0, 30, 0⟩, period := some 7200,
            next_run := some (afterReplace TimeUnit.hours ⟨0, 30, 0⟩ 8100 -
              catchUpShift TimeUnit.hours) } ∧
    Job.schedule_next_run 900 0
        { interval := 1, unit := some TimeUnit.hours,
          at_time := some ⟨0, 30, 0⟩, last_run := some 0 } =
      .ok { interval := 1, unit := some TimeUnit.hours,
            at_time := some ⟨0, 30, 0⟩, last_run := some 0,
            period := some 3600,
            next_run := some (afterReplace TimeUnit.hours ⟨0, 30, 0⟩ 3600 -
              catchUpShift TimeUnit.hours) } ∧
    Job.schedule_next_run 900 1
        { interval := 1, latest := some 3, unit := some TimeUnit.hours,
          at_time := some ⟨0, 30, 0⟩, next_run := some 10000 } =
      .ok { interval := 1, latest := some 3, unit := some TimeUnit.hours,
            at_time := some ⟨0, 30, 0⟩, next_run := some (afterReplace
              TimeUnit.hours ⟨0, 30, 0⟩ 10000 - catchUpShift TimeUnit.hours),
            period := some 7200 } :=
  ⟨c4_amended_one_unit_shift
      { interval := 2, unit := some TimeUnit.hours, at_time := some ⟨0, 30, 0⟩ }
      ⟨0, 30, 0⟩ 900 0 2 TimeUnit.hours rfl rfl rfl rfl
      (fun lr h => by simp at h) (Or.inl (by decide)),
    c4_amended_one_unit_shift
      { interval := 1, unit := some TimeUnit.hours,
        at_time := some ⟨0, 30, 0⟩, last_run := some 0 }
      ⟨0, 30, 0⟩ 900 0 1 TimeUnit.hours rfl rfl rfl rfl
      (fun lr h => by injection h with h2; subst h2; decide)
      (Or.inl (by decide)),
    c4_amended_one_unit_shift
      { interval := 1, latest := some 3, unit := some TimeUnit.hours,
        at_time := some ⟨0, 30, 0⟩, next_run := some 10000 }
      ⟨0, 30, 0⟩ 900 1 2 TimeUnit.hours rfl rfl rfl rfl
      (fun lr h => by simp at h) (Or.inl (by decide))⟩

/-- The counterexample job of claim C8: `every(2).to(1).seconds`. -/
def jC8 : Job :=
  { interval := 2, latest := some 1, unit := some .seconds }

/-- C8 counterexample.  With `latest < interval` the recomputation raises
the plain base class `ScheduleError` (source line 614), not the
`ScheduleValueError` subclass the claim names. -/
theorem c8_counterexample :
    jC8.schedule_next_run 0 0 = .error .scheduleError ∧
    SchedErr.scheduleError ≠ SchedErr.scheduleValueError := by
  refine ⟨rfl, by decide⟩

/-- C6.  Deadline handling in `Job.run` for a plain job with a deadline
`d`: when the deadline has already passed at dispatch (`d < now`), the
callable is not invoked and the sentinel is returned with the job
untouched; otherwise the callable is invoked, `last_run` becomes `now`,
`next_run` is recomputed to `now + period`, and the run returns the
sentinel exactly when that new `next_run` exceeds the deadline, whatever
the callable produced. -/
theorem c6_deadline_run :
    ∀ (j : Job) (now seed d : Int) (res : FuncResult) (u : TimeUnit),
      j.cancel_after = some d → j.unit = some u → j.latest = none →
      j.start_day = none → j.at_time = none →
      (d < now → j.run now seed res = .ok ⟨j, false, .cancelJob⟩) ∧
      (¬ d < now →
        j.run now seed res =
          .ok ⟨{ j with
                   last_run := some now,
                   period := some (j.interval * unitSeconds u),
                   next_run := some (now + j.interval * unitSeconds u) }, true,
               if d < now + j.interval * unitSeconds u then .cancelJob
               else .task res⟩) := by
  intro j now seed d res u hca hu hlat hsd hat
  obtain ⟨jid, itv, lat, fn, un, a0, lr0, nr0, per0, sd0, ca0⟩ := j
  subst hca hu hlat hsd hat
  constructor
  · intro hd
    simp [Job.run, Job.is_overdue, hd]
  · intro hd
    have hs := schedule_plain
      ⟨jid, itv, none, fn, some u, none, some now, nr0, per0, none, some d⟩
      now seed u rfl rfl rfl rfl
    simp only [basePoint] at hs
    simp only [Job.run, Job.is_overdue, hd, decide_eq_true_eq, hs]
    by_cases hlt : d < now + itv * unitSeconds u
    · simp [hlt]
    · simp [hlt]

/-- Witness for C6: the spec's own scenario, `until(now + 3s)` with a
10-second interval at `now = 100`.  The callable is invoked exactly once
(`invoked = true`), the job is rescheduled to 110 which exceeds the
deadline 103, and the run returns the cancellation sentinel; the passed
deadline case is also exercised at `now = 104`. -/
theorem c6_deadline_run_witness :
    Job.run 100 0 FuncResult.value
        { interval := 10, unit := some TimeUnit.seconds, next_run := some 50,
          cancel_after := some 103 } =
      .ok ⟨{ interval := 10, unit := some TimeUnit.seconds,
             cancel_after := some 103, last_run := some 100,
             period := some 10, next_run := some 110 }, true, .cancelJob⟩ ∧
    Job.run 104 0 FuncResult.value
        { interval := 10, unit := some TimeUnit.seconds, next_run := some 50,
          cancel_after := some 103 } =
      .ok ⟨{ interval := 10, unit := some TimeUnit.seconds, next_run := some 50,
             cancel_after := some 103 }, false, .cancelJob⟩ := by
  constructor
  · have h := (c6_deadline_run
      { interval := 10, unit := some TimeUnit.seconds, next_run := some 50,
        cancel_after := some 103 }
      100 0 103 FuncResult.value TimeUnit.seconds rfl rfl rfl rfl rfl).2
      (by decide)
    simpa using h
  · exact (c6_deadline_run
      { interval := 10, unit := some TimeUnit.seconds, next_run := some 50,
        cancel_after := some 103 }
      104 0 103 FuncResult.value TimeUnit.seconds rfl rfl rfl rfl rfl).1
      (by decide)

/-- C10.  The deadline comparison is strict: an instant exactly equal to
the deadline is not overdue; dispatching at `now = d` still invokes the
callable, and a recomputed `next_run` landing exactly on the deadline does
not cancel the job - the run returns the task handle. -/
theorem c10_strict_deadline :
    ∀ (j : Job) (d seed : Int) (res : FuncResult) (u : TimeUnit),
      j.cancel_after = some d → j.unit = some u → j.latest = none →
      j.start_day = none → j.at_time = none →
      j.is_overdue d = false ∧
      (j.run d seed res).map (fun o => o.invoked) = .ok true ∧
      (0 < j.interval * unitSeconds u →
        j.run (d - j.interval * unitSeconds u) seed res =
          .ok ⟨{ j with
                   last_run := some (d - j.interval * unitSeconds u),
                   period := some (j.interval * unitSeconds u),
                   next_run := some d }, true, .task res⟩) := by
  intro j d seed res u hca hu hlat hsd hat
  obtain ⟨jid, itv, lat, fn, un, a0, lr0, nr0, per0, sd0, ca0⟩ := j
  subst hca hu hlat hsd hat
  refine ⟨by simp [Job.is_overdue], ?_, ?_⟩
  · have hs := schedule_plain
      ⟨jid, itv, none, fn, some u, none, some d, nr0, per0, none, some d⟩
      d seed u rfl rfl rfl rfl
    simp only [basePoint] at hs
    simp only [Job.run, Job.is_overdue, hs]
    by_cases hlt : d < d + itv * unitSeconds u
    · simp [hlt, Except.map]
    · simp [hlt, Except.map]
  · intro hpos
    have hpos2 : 0 < itv * unitSeconds u := hpos
    have hnow : ¬ d < d - itv * unitSeconds u := by omega
    have hs := schedule_plain
      ⟨jid, itv, none, fn, some u, none, some (d - itv * unitSeconds u), nr0,
        per0, none, some d⟩
      (d - itv * unitSeconds u) seed u rfl rfl rfl rfl
    simp only [basePoint] at hs
    have harith : d - itv * unitSeconds u + itv * unitSeconds u = d := by
      omega
    rw [harith] at hs
    simp only [Job.run, Job.is_overdue, hs]
    simp [hnow]

/-- Witness for C10 at a concrete job: deadline 103, interval 10 seconds;
dispatch at 103 still invokes, and dispatch at 93 reschedules exactly onto
the deadline without cancelling. -/
theorem c10_strict_deadline_witness :
    Job.is_overdue
        { interval := 10, unit := some TimeUnit.seconds, next_run := some 50,
          cancel_after := some 103 } 103 = false ∧
    (Job.run 103 0 FuncResult.value
        { interval := 10, unit := some TimeUnit.seconds, next_run := some 50,
          cancel_after := some 103 }).map (fun o => o.invoked) = .ok true ∧
    Job.run 93 0 FuncResult.value
        { interval := 10, unit := some TimeUnit.seconds, next_run := some 50,
          cancel_after := some 103 } =
      .ok ⟨{ interval := 10, unit := some TimeUnit.seconds,
             cancel_after := some 103, last_run := some 93,
             period := some 10, next_run := some 103 }, true,
           .task FuncResult.value⟩ := by
  have h := c10_strict_deadline
    { interval := 10, unit := some TimeUnit.seconds, next_run := some 50,
      cancel_after := some 103 }
    103 0 FuncResult.value TimeUnit.seconds rfl rfl rfl rfl rfl
  refine ⟨h.1, h.2.1, ?_⟩
  have h3 := h.2.2 (by decide)
  simpa using h3

/-- The counterexample job of claim C9: an hourly job. -/
def jC9 : Job :=
  { interval := 1, unit := some .hours }

/-- C9 counterexample.  For an hourly job, `at(":30")` stores the
time-of-day 00:30:00 - the short field is the MINUTE (the source docstring
says the hourly short form is `:MM`) - not 00:00:30 as the claim's
"second SS" reading predicts. -/
theorem c9_counterexample :
    Job.at ":30" jC9 = .ok { jC9 with at_time := some ⟨0, 30, 0⟩ } ∧
    (⟨0, 30, 0⟩ : AtTime) ≠ ⟨0, 0, 30⟩ := by
  refine ⟨rfl, by decide⟩

/-- A digit character is not a colon. -/
theorem ne_colon_of_isDigit {c : Char} (h : isDigit c = true) : ¬ c = ':' := by
  intro he
  subst he
  exact absurd h (by decide)

/-- A `[0-5]` character is not a colon. -/
theorem ne_colon_of_isDigit05 {c : Char} (h : isDigit05 c = true) :
    ¬ c = ':' := by
  intro he
  subst he
  exact absurd h (by decide)

/-- C9 (amended).  For an hourly job, `at` accepts `MM:SS` and the short
form `:MM`; the full form stores hour 0 (the unit-irrelevant hour is forced
to 0), minute `MM` and second `SS`, while in the short form the single
field is the MINUTE and the second defaults to 0 - `at(":MM")` stores
hour 0, minute `MM`, second 0, not second `MM` as the original claim
stated. -/
theorem c9_amended_hourly_at :
    ∀ (j : Job) (c1 c2 c3 c4 : Char),
      j.unit = some TimeUnit.hours → j.start_day = none →
      (isDigit05 c1 = true → isDigit c2 = true → isDigit05 c3 = true →
        isDigit c4 = true →
        Job.at (String.mk [c1, c2, ':', c3, c4]) j =
          .ok { j with at_time := some ⟨0, 10 * (c1.toNat - 48) + (c2.toNat - 48),
                  10 * (c3.toNat - 48) + (c4.toNat - 48)⟩ }) ∧
      (isDigit05 c3 = true → isDigit c4 = true →
        Job.at (String.mk [':', c3, c4]) j =
          .ok { j with
                  at_time := some ⟨0, 10 * (c3.toNat - 48) + (c4.toNat - 48), 0⟩ }) := by
  intro j c1 c2 c3 c4 hu hsd
  constructor
  · intro h1 h2 h3 h4
    have n1 := ne_colon_of_isDigit05 h1
    have n2 := ne_colon_of_isDigit h2
    have n3 := ne_colon_of_isDigit05 h3
    have n4 := ne_colon_of_isDigit h4
    simp [Job.at, hu, hsd, hourlyFormatOk, h1, h2, h3, h4, splitColon, n1, n2,
      n3, n4, finishAt, strToNat]
  · intro h3 h4
    have n3 := ne_colon_of_isDigit05 h3
    have n4 := ne_colon_of_isDigit h4
    simp [Job.at, hu, hsd, hourlyFormatOk, h3, h4, splitColon, n3, n4,
      finishAt, strToNat]

/-- Witness for C9's amended theorem: `at("12:34")` stores 00:12:34 and
`at(":30")` stores 00:30:00 on an hourly job. -/
theorem c9_amended_hourly_at_witness :
    Job.at "12:34" { interval := 1, unit := some TimeUnit.hours } =
      .ok { interval := 1, unit := some TimeUnit.hours,
            at_time := some ⟨0, 12, 34⟩ } ∧
    Job.at ":30" { interval := 1, unit := some TimeUnit.hours } =
      .ok { interval := 1, unit := some TimeUnit.hours,
            at_time := some ⟨0, 30, 0⟩ } := by
  have h := c9_amended_hourly_at
    { interval := 1, unit := some TimeUnit.hours } '1' '2' '3' '4' rfl rfl
  have h2 := c9_amended_hourly_at
    { interval := 1, unit := some TimeUnit.hours } '1' '2' '3' '0' rfl rfl
  exact ⟨by simpa using h.1 (by decide) (by decide) (by decide) (by decide),
    by simpa using h2.2 (by decide) (by decide)⟩

/-- C8 (amended).  `to(latest)` stores the bound with no validation at all;
when `latest < interval`, next-run computation fails - but with the plain
base-class `ScheduleError` (not the `ScheduleValueError` subclass the
original claim names); and when `latest >= interval` the drawn effective
interval always lies in the inclusive range `[interval, latest]`. -/
theorem c8_amended_jitter :
    (∀ (j : Job) (l : Int), j.to l = { j with latest := some l }) ∧
    (∀ (j : Job) (now seed l : Int) (u : TimeUnit),
        j.unit = some u → j.latest = some l → l < j.interval →
        j.schedule_next_run now seed = .error .scheduleError) ∧
    (∀ (j : Job) (seed l k : Int),
        j.latest = some l → j.interval ≤ l →
        effectiveInterval seed j = .ok k →
        j.interval ≤ k ∧ k ≤ l) := by
  refine ⟨fun j l => rfl, ?_, ?_⟩
  · intro j now seed l u hu hl hlt
    have hnot : ¬ j.interval ≤ l := by omega
    simp [Job.schedule_next_run, hu, hl, hnot, effectiveInterval, bind,
      Except.bind]
  · intro j seed l k hl hle hk
    simp only [effectiveInterval, hl, if_pos hle, Except.ok.injEq] at hk
    have h0 : 0 ≤ seed % (l - j.interval + 1) :=
      Int.emod_nonneg seed (by omega)
    have h1 : seed % (l - j.interval + 1) < l - j.interval + 1 :=
      Int.emod_lt_of_pos seed (by omega)
    subst hk
    unfold randint
    omega

/-- Witness for C8's amended theorem: `to` on a concrete job, the failing
`every(2).to(1)` recomputation, and an in-range draw for `every(1).to(5)`
at a concrete seed. -/
theorem c8_amended_jitter_witness :
    Job.to 1 { interval := 2, unit := some TimeUnit.seconds } =
      { interval := 2, unit := some TimeUnit.seconds, latest := some 1 } ∧
    Job.schedule_next_run 0 0
        { interval := 2, unit := some TimeUnit.seconds, latest := some 1 } =
      .error .scheduleError ∧
    ((1 : Int) ≤ 4 ∧ (4 : Int) ≤ 5) :=
  ⟨c8_amended_jitter.1 { interval := 2, unit := some TimeUnit.seconds } 1,
    c8_amended_jitter.2.1
      { interval := 2, unit := some TimeUnit.seconds, latest := some 1 }
      0 0 1 TimeUnit.seconds rfl rfl (by decide),
    c8_amended_jitter.2.2
      { interval := 1, unit := some TimeUnit.seconds, latest := some 5 }
      8 5 4 rfl (by decide) rfl⟩

/-- One `_run_job` only ever appends to the scheduler's task list (job
cancellation touches only the job list). -/
theorem run_job_tasks_prefix {now seed : Int} {res : FuncResult}
    {st st2 : SchedState} {j : Job}
    (h : run_job now seed res st j = .ok st2) :
    ∃ ext, st2.tasks = st.tasks ++ ext := by
  unfold run_job at h
  split at h
  · simp at h
  · rename_i out heq
    by_cases hr : out.ret = RunRet.cancelJob
    · rw [if_pos hr] at h
      cases h
      refine ⟨if out.invoked = true then [⟨st.nextTid, false⟩] else [], ?_⟩
      by_cases hi : out.invoked = true <;> simp [cancel_job, hi]
    · rw [if_neg hr] at h
      cases h
      refine ⟨if out.invoked = true then [⟨st.nextTid, false⟩] else [], ?_⟩
      by_cases hi : out.invoked = true <;> simp [hi]

/-- The dispatch loop of a tick only ever appends to the task list. -/
theorem dispatchAll_tasks_prefix {now : Int} {env : Nat → Int × FuncResult} :
    ∀ (l : List Job) (st : SchedState) (k : Nat) (st1 : SchedState),
      dispatchAll now env st l k = .ok st1 →
      ∃ ext, st1.tasks = st.tasks ++ ext := by
  intro l
  induction l with
  | nil =>
      intro st k st1 h
      unfold dispatchAll at h
      cases h
      exact ⟨[], by simp⟩
  | cons j js ih =>
      intro st k st1 h
      unfold dispatchAll at h
      cases hq : run_job now (env k).1 (env k).2 st j with
      | error e => rw [hq] at h; simp at h
      | ok st2 =>
          rw [hq] at h
          simp only at h
          obtain ⟨e1, he1⟩ := run_job_tasks_prefix hq
          obtain ⟨e2, he2⟩ := ih st2 (k + 1) st1 h
          exact ⟨e1 ++ e2, by rw [he2, he1, List.append_assoc]⟩

/-- C5.  A polling tick dispatches exactly the jobs whose `next_run` is at
or before `now` (membership in the dispatched list is equivalent to being a
registered due job), in ascending `next_run` order (the dispatched list is
sorted under `jobLe` and is a permutation of the due filter); the awaited
set is exactly the post-tick outstanding set, contains only running
(not-done) tasks, and includes every not-yet-done task from earlier ticks -
`asyncio.gather` of that set is what the tick awaits before returning. -/
theorem c5_tick :
    ∀ (st : SchedState) (now : Int) (env : Nat → Int × FuncResult)
      (tr : TickResult),
      run_pending now env st = .ok tr →
      (∀ j : Job, j ∈ tr.dispatched ↔
          j ∈ st.jobs ∧ ∃ nr : Int, j.next_run = some nr ∧ nr ≤ now) ∧
      tr.dispatched.Sorted jobLe ∧
      tr.dispatched.Perm (st.jobs.filter (Job.should_run now)) ∧
      tr.awaited = tr.state.tasks ∧
      (∀ t ∈ tr.awaited, t.done = false) ∧
      (∀ t ∈ st.tasks, t.done = false → t ∈ tr.awaited) := by
  intro st now env tr hok
  unfold run_pending at hok
  simp only [bind, Except.bind] at hok
  cases hd : dispatchAll now env st
      (sortByNextRun (st.jobs.filter (Job.should_run now))) 0 with
  | error e => rw [hd] at hok; simp at hok
  | ok st1 =>
      rw [hd] at hok
      simp only at hok
      cases hok
      refine ⟨?_, ?_, ?_, rfl, ?_, ?_⟩
      · intro j
        simp only [sortByNextRun, List.mem_insertionSort, List.mem_filter,
          and_congr_right_iff]
        intro _
        unfold Job.should_run
        cases hnr : j.next_run <;> simp [hnr]
      · exact List.sorted_insertionSort jobLe _
      · exact List.perm_insertionSort jobLe _
      · intro t ht
        simp only [List.mem_filter, Bool.not_eq_true'] at ht
        exact ht.2
      · intro t ht hdone
        obtain ⟨ext, hext⟩ := dispatchAll_tasks_prefix _ st 0 st1 hd
        simp only [hext, List.mem_filter, List.mem_append, Bool.not_eq_true']
        exact ⟨Or.inl ht, hdone⟩

/-- The concrete scheduler state for the C5 witness: two due jobs listed
out of `next_run` order, one not-yet-due job, one finished and one
still-running task from earlier ticks. -/
def stEx5 : SchedState :=
  { jobs := [{ jid := 1, unit := some .seconds, next_run := some 90 },
             { jid := 2, unit := some .seconds, next_run := some 80 },
             { jid := 3, unit := some .seconds, next_run := some 200 }],
    tasks := [⟨50, true⟩, ⟨51, false⟩] }

/-- The tick outcome of `stEx5` at `now = 100`: jobs 2 and 1 dispatched in
`next_run` order, the finished task 50 pruned, tasks 51 (old) and 0, 1
(fresh) awaited. -/
def trEx5 : TickResult :=
  { state :=
      { jobs := [{ jid := 1, unit := some .seconds, last_run := some 100,
                   next_run := some 101, period := some 1 },
                 { jid := 2, unit := some .seconds, last_run := some 100,
                   next_run := some 101, period := some 1 },
                 { jid := 3, unit := some .seconds, next_run := some 200 }],
        tasks := [⟨51, false⟩, ⟨0, false⟩, ⟨1, false⟩], nextTid := 2 },
    dispatched := [{ jid := 2, unit := some .seconds, next_run := some 80 },
                   { jid := 1, unit := some .seconds, next_run := some 90 }],
    awaited := [⟨51, false⟩, ⟨0, false⟩, ⟨1, false⟩] }

/-- Witness for C5: the tick on `stEx5` at `now = 100` produces exactly
`trEx5` and therefore all the tick properties at that concrete input. -/
theorem c5_tick_witness :
    (∀ j : Job, j ∈ trEx5.dispatched ↔
        j ∈ stEx5.jobs ∧ ∃ nr : Int, j.next_run = some nr ∧ nr ≤ (100 : Int)) ∧
    trEx5.dispatched.Sorted jobLe ∧
    trEx5.dispatched.Perm (stEx5.jobs.filter (Job.should_run 100)) ∧
    trEx5.awaited = trEx5.state.tasks ∧
    (∀ t ∈ trEx5.awaited, t.done = false) ∧
    (∀ t ∈ stEx5.tasks, t.done = false → t ∈ trEx5.awaited) :=
  c5_tick stEx5 100 (fun _ => (0, FuncResult.value)) trEx5 rfl

end Schedule
